import Mathlib

/-!
Verification of the `yabai-cycle-spaces` utility (`src/main.rs`).

The program queries the `yabai` window manager for its space records,
builds an in-memory configuration snapshot, resolves a new space
position from a requested move (next / previous / explicit index), and
issues one "focus space" command per display.

The embedding below translates the Rust source shallowly:

* `HashMap<u32, _>` becomes an association list `List (Nat × _)` whose
  `insertAssoc` overwrites the value of an existing key, as
  `HashMap::insert` does; the list order stands for one possible
  (arbitrary) iteration order of the `HashMap`.
* The external process calls are modelled by their observable data: the
  argument vector a call would pass to `yabai`, and, for
  `yabai_focus_space`, an explicit `Option ProcessOutput` standing for
  the result of spawning the child process (`none` = the process could
  not be spawned, which is the only failure `Command::output` reports).
* Machine integers are `Nat`.  `as u32` casts truncate (`% U32`), the
  `u32` addition in the loop is modelled with its wrapping semantics
  (its operands are bounded in every theorem below, so wrapping never
  fires there), and the two subtraction sites that can underflow
  (`space_index - 1` on `usize`, `*display - 1` on `u32`) are modelled
  by `checkedSub`, whose `none` marks the underflow (a panic in debug
  builds, a silent wrap in release builds).
-/

/-- `2^32`, the modulus of Rust's `u32`. -/
def U32 : Nat := 2 ^ 32

/-- `2^64`, the modulus of Rust's `usize` on the 64-bit targets yabai runs on. -/
def USIZE : Nat := 2 ^ 64

/-- Unsigned subtraction with an explicit underflow marker.  Models both
`space_index - 1` (`usize`) and `*display - 1` (`u32`) from the source:
`none` means the subtraction underflows (panic in debug builds, silent
wraparound in release builds). -/
def checkedSub (a b : Nat) : Option Nat :=
  if b ≤ a then some (a - b) else none

/-- First-match lookup in an association list (`HashMap::get`). -/
def lookupA {α : Type} (m : List (Nat × α)) (k : Nat) : Option α :=
  match m with
  | [] => none
  | (k', v) :: rest => if k' = k then some v else lookupA rest k

/-- Insert that overwrites an existing key in place and otherwise appends,
modelling `HashMap::insert`. -/
def insertAssoc {α : Type} (m : List (Nat × α)) (k : Nat) (v : α) : List (Nat × α) :=
  match m with
  | [] => [(k, v)]
  | (k', v') :: rest =>
    if k' = k then (k, v) :: rest else (k', v') :: insertAssoc rest k v

/-- Last-match lookup in an association list: the value of the *last*
entry carrying the key.  Used to express the overwrite semantics of
repeated `HashMap::insert` calls. -/
def lookupLast {α : Type} (m : List (Nat × α)) (k : Nat) : Option α :=
  match m with
  | [] => none
  | (k', v) :: rest =>
    match lookupLast rest k with
    | some v' => some v'
    | none => if k' = k then some v else none

/-- Itertools' `exactly_one`: `some` exactly when the list has a single
element; zero or several elements are an error in the source. -/
def exactlyOne {α : Type} (l : List α) : Option α :=
  match l with
  | [a] => some a
  | _ => none

/-- The error enum of the program.  The payloads of the first two
constructors (an `std::io::Error` / `serde_json::Error`) carry no
information the claims need and are dropped. -/
inductive ProgramError where
  | YabayExecutionError
  | YabaiJsonParseError
  | YabaiConfigError
deriving DecidableEq

/-- The requested move (`enum YabaiSpace`). -/
inductive YabaiSpace where
  | next
  | previous
  | space (s : Nat)

/-- A decoded yabai space record (`struct YabaiSpaceConfigJson`); the
ignored JSON fields are omitted exactly as in the source. -/
structure YabaiSpaceConfigJson where
  id : Nat
  display : Nat
  has_focus : Bool
  is_visible : Bool
deriving DecidableEq

/-- The configuration snapshot (`struct YabaiSpaceConfig`). -/
structure YabaiSpaceConfig where
  display_space_map : List (Nat × List Nat)
  display_visible_map : List (Nat × Nat)
  focused_display : Nat
deriving DecidableEq

/-- The parsed command line (`struct Arguments`); clap's `cycle-group`
makes the three fields mutually exclusive. -/
structure Arguments where
  next : Bool
  prev : Bool
  cycle_to : Option Nat
deriving DecidableEq

/-- Itertools' `group_by(|s| s.display)`: splits the record sequence into
maximal runs of consecutive records sharing a display, keyed by that
display. -/
def group_by_display (records : List YabaiSpaceConfigJson) :
    List (Nat × List YabaiSpaceConfigJson) :=
  match records with
  | [] => []
  | x :: xs =>
    match group_by_display xs with
    | [] => [(x.display, [x])]
    | (k, g) :: rest =>
      if x.display = k then (k, x :: g) :: rest
      else (x.display, [x]) :: (k, g) :: rest

/-- The `for (display, spaces) in ... group_by` loop of
`yabai_query_spaces`: collects each group's ids, checks that the group
has exactly one visible record, and inserts both per-display map
entries. -/
def build_config_go (groups : List (Nat × List YabaiSpaceConfigJson))
    (config : YabaiSpaceConfig) : Except ProgramError YabaiSpaceConfig :=
  match groups with
  | [] => .ok config
  | (display, spaces) :: rest =>
    let display_space_map := spaces.map (fun s => s.id)
    match exactlyOne (spaces.filter (fun s => s.is_visible)) with
    | none => .error .YabaiConfigError
    | some focused_space =>
      build_config_go rest
        { config with
          display_visible_map :=
            insertAssoc config.display_visible_map display focused_space.id,
          display_space_map :=
            insertAssoc config.display_space_map display display_space_map }

/-- `yabai_query_spaces`, starting from the decoded record sequence (the
process-spawn and JSON stages upstream of it only propagate their own
errors and are not needed by any claim). -/
def yabai_query_spaces (all_spaces : List YabaiSpaceConfigJson) :
    Except ProgramError YabaiSpaceConfig :=
  match exactlyOne (all_spaces.filter (fun s => s.has_focus)) with
  | none => .error .YabaiConfigError
  | some f =>
    build_config_go (group_by_display all_spaces)
      { display_space_map := [], display_visible_map := [], focused_display := f.display }

/-- The `enumerate / filter / map / exactly_one` pipeline locating the
visible space inside the focused display's ordered space list. -/
def space_index_of (spaces : List Nat) (focused_space : Nat) : Option Nat :=
  exactlyOne (((spaces.enum).filter (fun is => is.2 = focused_space)).map (fun is => is.1))

/-- The `match cmd` computing `new_space` from the found position.
`Next` is a `usize` addition that cannot overflow because the position
is an index into a `Vec`; `Previous` is the `usize` subtraction whose
underflow at position 0 `checkedSub` makes explicit. -/
def resolve_new_space (space_index : Nat) (cmd : YabaiSpace) : Option Nat :=
  match cmd with
  | .next => some (space_index + 1)
  | .previous => checkedSub space_index 1
  | .space s => some s

/-- Steps 1–4 of `yabai_move_space`: the two lookups for the focused
display and the position of its visible space, then the new position.
`.ok none` marks the `usize` underflow of `Previous` at position 0. -/
def yabai_resolve_position (config : YabaiSpaceConfig) (cmd : YabaiSpace) :
    Except ProgramError (Option Nat) :=
  match lookupA config.display_visible_map config.focused_display with
  | none => .error .YabaiConfigError
  | some focused_space =>
    match lookupA config.display_space_map config.focused_display with
    | none => .error .YabaiConfigError
    | some selected_display_spaces =>
      match space_index_of selected_display_spaces focused_space with
      | none => .error .YabaiConfigError
      | some space_index => .ok (resolve_new_space space_index cmd)

/-- The `previous_spaces` accumulator of the loop of `yabai_move_space`:
`(0u32..*display - 1).filter_map(|d| map.get(&(d + 1))).map(|sv| sv.len()).sum()`.
The `u32` subtraction `*display - 1` underflows for display 0
(`checkedSub`); the sum is a `usize`. -/
def previous_spaces_code (m : List (Nat × List Nat)) (display : Nat) : Option Nat :=
  (checkedSub display 1).map (fun hi =>
    (((List.range hi).filterMap (fun d => lookupA m (d + 1))).map
      (fun sv => sv.length)).sum % USIZE)

/-- The `for (display, spaces) in config.display_space_map.iter()` loop of
`yabai_move_space`, returning the `(display, target)` pairs it passes to
`yabai_focus_space` in map order.  `none` marks a panic: the `u32`
underflow of `previous_spaces` at display 0, or `new_space % 0` on an
empty space list.  The final target mirrors
`previous_spaces as u32 + (new_space % spaces.len()) as u32`: both casts
truncate mod `U32` and the `u32` addition is taken with its release
(wrapping) semantics — every theorem below bounds the operands so that
the wrap never fires. -/
def move_loop_go (full : List (Nat × List Nat)) (entries : List (Nat × List Nat))
    (new_space : Nat) : Option (List (Nat × Nat)) :=
  match entries with
  | [] => some []
  | (display, spaces) :: rest =>
    match previous_spaces_code full display with
    | none => none
    | some previous_spaces =>
      if spaces.length = 0 then none
      else
        match move_loop_go full rest new_space with
        | none => none
        | some ts =>
          some ((display,
            (previous_spaces % U32 + (new_space % spaces.length) % U32) % U32) :: ts)

/-- `yabai_move_space`: resolve the new position, then run the per-display
loop.  The `.ok` payload is `none` on a panic (arithmetic underflow /
modulo by zero) and otherwise the list of `(display, target)` pairs
handed to `yabai_focus_space`. -/
def yabai_move_space (config : YabaiSpaceConfig) (cmd : YabaiSpace) :
    Except ProgramError (Option (List (Nat × Nat))) :=
  match yabai_resolve_position config cmd with
  | .error e => .error e
  | .ok none => .ok none
  | .ok (some new_space) =>
    .ok (move_loop_go config.display_space_map config.display_space_map new_space)

/-- The argument vector `yabai_focus_space display space_idx` passes to the
`yabai` executable.  Note that `display` does not occur in it: the source
builds `["-m", "space", "--focus", (space_idx + 1).to_string()]` only.
The `+ 1` is the `u32` addition of the source, truncated mod `U32`. -/
def yabai_focus_space_cmd (display : Nat) (space_idx : Nat) : List String :=
  ["-m", "space", "--focus", toString ((space_idx + 1) % U32)]

/-- The observable result of one child-process run, as far as the source
could inspect it (it never does). -/
structure ProcessOutput where
  status : Int
  stdout : String
  stderr : String
deriving DecidableEq

/-- `yabai_focus_space` proper: `spawn` is the result of
`Command::output()` (`none` = the process could not be spawned, the only
error that call reports).  The function binds the output to an unused
variable and returns `Ok(())`, so any spawned process — whatever its
exit status or output — yields success. -/
def yabai_focus_space (display : Nat) (space_idx : Nat)
    (spawn : Option ProcessOutput) : Except ProgramError Unit :=
  match spawn with
  | none => .error .YabayExecutionError
  | some _ => .ok ()

/-- The focus commands issued for a list of `(display, target)` pairs. -/
def issued_focus_cmds (ts : List (Nat × Nat)) : List (List String) :=
  ts.map (fun dt => yabai_focus_space_cmd dt.1 dt.2)

/-- `main`, from the parsed arguments and the outcome of
`yabai_query_spaces` (which runs unconditionally, before any flag is
examined).  The result carries the `(display, target)` focus pairs the
invocation issues; the `cycle_to` branch of the source only executes
`println!("cycle to {}", cycle_to)` and issues no focus command, exactly
like the empty `else` branch. -/
def run_main (args : Arguments) (query_result : Except ProgramError YabaiSpaceConfig) :
    Except ProgramError (Option (List (Nat × Nat))) :=
  match query_result with
  | .error e => .error e
  | .ok ys =>
    if args.next then yabai_move_space ys YabaiSpace.next
    else if args.prev then yabai_move_space ys YabaiSpace.previous
    else
      match args.cycle_to with
      | some _ => .ok (some [])
      | none => .ok (some [])

/-- Spec side: the total number of spaces across all displays of a
space map. -/
def total_space_count (m : List (Nat × List Nat)) : Nat :=
  (m.map (fun e => e.2.length)).sum

/-- Spec side: the sum of the lengths of the space lists of the displays
that precede display `d` in the order of display identifiers. -/
def preceding_spaces_total (m : List (Nat × List Nat)) (d : Nat) : Nat :=
  ((m.filter (fun e => e.1 < d)).map (fun e => e.2.length)).sum

/-! ### Association-list lemmas -/

theorem lookupA_insertAssoc {α : Type} (m : List (Nat × α)) (k d : Nat) (v : α) :
    lookupA (insertAssoc m k v) d = if k = d then some v else lookupA m d := by
  induction m with
  | nil => simp [insertAssoc, lookupA]
  | cons e rest ih =>
    obtain ⟨k', v'⟩ := e
    by_cases hk : k' = k
    · subst hk
      simp only [insertAssoc, if_pos rfl, lookupA]
      by_cases hd : k' = d <;> simp [hd]
    · simp only [insertAssoc, if_neg hk, lookupA]
      by_cases hd : k' = d
      · subst hd
        have : ¬ k = k' := fun h => hk h.symm
        simp [this]
      · simp [hd, ih]

theorem lookupA_eq_none_of_not_mem {α : Type} (m : List (Nat × α)) (k : Nat)
    (h : k ∉ m.map Prod.fst) : lookupA m k = none := by
  induction m with
  | nil => rfl
  | cons e rest ih =>
    obtain ⟨k', v'⟩ := e
    simp only [List.map_cons, List.mem_cons] at h
    push_neg at h
    simp only [lookupA]
    rw [if_neg (fun he => h.1 he.symm)]
    exact ih h.2

theorem lookupLast_eq_lookupA {α : Type} (m : List (Nat × α)) (k : Nat)
    (h : (m.map Prod.fst).Nodup) : lookupLast m k = lookupA m k := by
  induction m with
  | nil => rfl
  | cons e rest ih =>
    obtain ⟨k', v'⟩ := e
    simp only [List.map_cons, List.nodup_cons] at h
    simp only [lookupLast, lookupA, ih h.2]
    by_cases hd : k' = k
    · subst hd
      rw [lookupA_eq_none_of_not_mem rest k' h.1]
    · rw [if_neg hd]
      cases hx : lookupA rest k <;> simp [hx, hd]

theorem exactlyOne_isSome_iff {α : Type} (l : List α) :
    (exactlyOne l).isSome = true ↔ l.length = 1 := by
  match l with
  | [] => simp [exactlyOne]
  | [a] => simp [exactlyOne]
  | a :: b :: t => simp [exactlyOne]

/-! ### Grouping lemmas -/

theorem group_by_display_nil_iff (records : List YabaiSpaceConfigJson) :
    group_by_display records = [] ↔ records = [] := by
  match records with
  | [] => simp [group_by_display]
  | x :: xs =>
    simp only [group_by_display]
    constructor
    · intro h
      exfalso
      cases hg : group_by_display xs with
      | nil => rw [hg] at h; simp at h
      | cons e rest =>
        obtain ⟨k, g⟩ := e
        rw [hg] at h
        by_cases hx : x.display = k <;> simp [hx] at h
    · intro h
      exact absurd h (by simp)

theorem mem_display_mem_group_keys (records : List YabaiSpaceConfigJson)
    (r : YabaiSpaceConfigJson) (hr : r ∈ records) :
    r.display ∈ (group_by_display records).map Prod.fst := by
  induction records with
  | nil => cases hr
  | cons x xs ih =>
    rcases List.mem_cons.mp hr with h | h
    · subst h
      cases hg : group_by_display xs with
      | nil => simp [group_by_display, hg]
      | cons e rest =>
        obtain ⟨k, g⟩ := e
        by_cases hx : r.display = k
        · simp [group_by_display, hg, hx]
        · simp [group_by_display, hg, hx]
    · have := ih h
      cases hg : group_by_display xs with
      | nil =>
        rw [hg] at this
        cases this
      | cons e rest =>
        obtain ⟨k, g⟩ := e
        rw [hg] at this
        by_cases hx : x.display = k
        · simpa [group_by_display, hg, hx] using this
        · simp only [group_by_display, hg, if_neg hx, List.map_cons, List.mem_cons]
          right
          simpa using this

/-! ### Sum lemmas for the preceding-displays offset -/

/-- The length of the space list stored under a key, 0 when absent. -/
def lenOfLookup (m : List (Nat × List Nat)) (k : Nat) : Nat :=
  ((lookupA m k).map List.length).getD 0

theorem filterMap_length_sum (l : List Nat) (m : List (Nat × List Nat)) :
    (((l.filterMap (fun d => lookupA m (d + 1))).map (fun sv => sv.length)).sum)
      = (l.map (fun d => lenOfLookup m (d + 1))).sum := by
  induction l with
  | nil => rfl
  | cons x xs ih =>
    simp only [List.filterMap_cons]
    cases hx : lookupA m (x + 1) with
    | none => simp [lenOfLookup, hx, ih]
    | some v => simp [lenOfLookup, hx, ih]

theorem sum_map_add_pointwise {α : Type} (l : List α) (f g : α → Nat) :
    (l.map (fun x => f x + g x)).sum = (l.map f).sum + (l.map g).sum := by
  induction l with
  | nil => rfl
  | cons x xs ih =>
    simp only [List.map_cons, List.sum_cons, ih]
    omega

theorem range_map_if_sum (n j A : Nat) :
    ((List.range n).map (fun d => if j = d + 1 then A else 0)).sum
      = if 1 ≤ j ∧ j ≤ n then A else 0 := by
  induction n with
  | zero =>
    simp only [List.range_zero, List.map_nil, List.sum_nil]
    rw [if_neg (by omega)]
  | succ n ih =>
    rw [List.range_succ, List.map_append, List.sum_append, ih]
    simp only [List.map_cons, List.map_nil, List.sum_cons, List.sum_nil]
    split_ifs <;> omega

theorem range_lookup_sum (m : List (Nat × List Nat)) (n : Nat)
    (hnd : (m.map Prod.fst).Nodup) (hpos : ∀ e ∈ m, 1 ≤ e.1) :
    ((List.range n).map (fun d => lenOfLookup m (d + 1))).sum
      = ((m.filter (fun e => e.1 ≤ n)).map (fun e => e.2.length)).sum := by
  induction m with
  | nil => simp [lenOfLookup, lookupA]
  | cons e rest ih =>
    obtain ⟨k, v⟩ := e
    simp only [List.map_cons, List.nodup_cons] at hnd
    have hk1 : 1 ≤ k := hpos (k, v) (by simp)
    have hrest : ∀ e ∈ rest, 1 ≤ e.1 := fun e he => hpos e (by simp [he])
    have hpt : ∀ d ∈ List.range n, lenOfLookup ((k, v) :: rest) (d + 1)
        = lenOfLookup rest (d + 1) + (if k = d + 1 then v.length else 0) := by
      intro d _
      by_cases hkd : k = d + 1
      · have hnone : lookupA rest (d + 1) = none := by
          rw [← hkd]
          exact lookupA_eq_none_of_not_mem rest k hnd.1
        simp [lenOfLookup, lookupA, hkd, hnone]
      · simp [lenOfLookup, lookupA, hkd]
    rw [List.map_congr_left hpt, sum_map_add_pointwise, ih hnd.2 hrest, range_map_if_sum]
    simp only [List.filter_cons]
    by_cases hkn : k ≤ n
    · rw [if_pos (⟨hk1, hkn⟩ : 1 ≤ k ∧ k ≤ n)]
      rw [if_pos (by simpa using hkn : decide (k ≤ n) = true)]
      simp only [List.map_cons, List.sum_cons]
      omega
    · rw [if_neg (by omega : ¬(1 ≤ k ∧ k ≤ n))]
      rw [if_neg (by simpa using hkn : ¬decide (k ≤ n) = true)]
      omega

theorem preceding_le_total (m : List (Nat × List Nat)) (d : Nat) :
    preceding_spaces_total m d ≤ total_space_count m := by
  induction m with
  | nil => simp [preceding_spaces_total, total_space_count]
  | cons e rest ih =>
    obtain ⟨k, v⟩ := e
    simp only [preceding_spaces_total, total_space_count, List.filter_cons,
      List.map_cons, List.sum_cons] at *
    by_cases hk : k < d
    · rw [if_pos (by simpa using hk)]
      simp only [List.map_cons, List.sum_cons]
      omega
    · rw [if_neg (by simpa using hk)]
      omega

theorem mem_preceding_add_le (m : List (Nat × List Nat)) (k : Nat) (v : List Nat)
    (hm : (k, v) ∈ m) :
    preceding_spaces_total m k + v.length ≤ total_space_count m := by
  induction m with
  | nil => cases hm
  | cons e rest ih =>
    obtain ⟨k', v'⟩ := e
    simp only [preceding_spaces_total, total_space_count, List.filter_cons,
      List.map_cons, List.sum_cons]
    rcases List.mem_cons.mp hm with h | h
    · obtain ⟨hk, hv⟩ := Prod.mk.injEq .. ▸ h
      subst hk
      subst hv
      rw [if_neg (by simp)]
      have := preceding_le_total rest k
      simp only [preceding_spaces_total, total_space_count] at this
      omega
    · have hih := ih h
      simp only [preceding_spaces_total, total_space_count] at hih
      by_cases hk : k' < k
      · rw [if_pos (by simpa using hk)]
        simp only [List.map_cons, List.sum_cons]
        omega
      · rw [if_neg (by simpa using hk)]
        omega

theorem previous_spaces_code_eq (m : List (Nat × List Nat)) (d : Nat)
    (hnd : (m.map Prod.fst).Nodup) (hpos : ∀ e ∈ m, 1 ≤ e.1) (hd : 1 ≤ d)
    (htot : total_space_count m < USIZE) :
    previous_spaces_code m d = some (preceding_spaces_total m d) := by
  have hsub : checkedSub d 1 = some (d - 1) := by
    simp [checkedSub, hd]
  simp only [previous_spaces_code, hsub, Option.map_some']
  rw [filterMap_length_sum, range_lookup_sum m (d - 1) hnd hpos]
  have hfc : ∀ e ∈ m, (decide (e.1 ≤ d - 1)) = (decide (e.1 < d)) := by
    intro e _
    by_cases he : e.1 < d
    · simp [he]; omega
    · simp [he]; omega
  rw [List.filter_congr hfc]
  have hle : preceding_spaces_total m d ≤ total_space_count m := preceding_le_total m d
  have : ((m.filter (fun e => e.1 < d)).map (fun e => e.2.length)).sum
      = preceding_spaces_total m d := rfl
  rw [this, Nat.mod_eq_of_lt (by omega)]

deriving instance DecidableEq for Except

/-! ### The resolution loop -/

theorem move_loop_go_spec (full : List (Nat × List Nat)) (p : Nat)
    (hnd : (full.map Prod.fst).Nodup) (hpos : ∀ e ∈ full, 1 ≤ e.1)
    (htot : total_space_count full < U32) :
    ∀ entries, (∀ e ∈ entries, e ∈ full ∧ e.2 ≠ []) →
    move_loop_go full entries p
      = some (entries.map (fun e =>
          (e.1, preceding_spaces_total full e.1 + p % e.2.length))) := by
  have htot64 : total_space_count full < USIZE := by
    have : U32 < USIZE := by norm_num [U32, USIZE]
    omega
  intro entries
  induction entries with
  | nil => intro _; rfl
  | cons e rest ih =>
    intro he
    obtain ⟨d, s⟩ := e
    obtain ⟨hmem, hne⟩ := he (d, s) (by simp)
    have hd1 : 1 ≤ d := hpos (d, s) hmem
    have hprev := previous_spaces_code_eq full d hnd hpos hd1 htot64
    have hrest := ih (fun e hh => he e (List.mem_cons_of_mem _ hh))
    simp only [move_loop_go, hprev, hrest]
    have hlen0 : ¬ s.length = 0 := by simpa using hne
    rw [if_neg hlen0]
    have hb : preceding_spaces_total full d + s.length ≤ total_space_count full :=
      mem_preceding_add_le full d s hmem
    have hmod : p % s.length < s.length := Nat.mod_lt _ (by omega)
    have h1 : preceding_spaces_total full d % U32 = preceding_spaces_total full d :=
      Nat.mod_eq_of_lt (by omega)
    have h2 : p % s.length % U32 = p % s.length := Nat.mod_eq_of_lt (by omega)
    rw [h1, h2, Nat.mod_eq_of_lt (by omega : preceding_spaces_total full d + p % s.length < U32)]
    simp

/-- Claim C1: for every snapshot and every resolved new position `p`, the
resolution loop computes, for every display in the snapshot (not only the
focused one), an absolute target equal to the sum of the lengths of the
space lists of the displays that precede it in display-identifier order,
plus `p` modulo that display's space count — and issues one focus command
per display carrying that target converted to 1-based indexing by adding
one.  The hypotheses are the well-formedness facts every snapshot built by
`yabai_query_spaces` enjoys (distinct, positive display ids; non-empty
space lists) plus the absence of `u32` overflow. -/
theorem claim_c1_absolute_targets_and_focus_commands
    (config : YabaiSpaceConfig) (cmd : YabaiSpace) (p : Nat)
    (hnd : (config.display_space_map.map Prod.fst).Nodup)
    (hpos : ∀ e ∈ config.display_space_map, 1 ≤ e.1 ∧ e.2 ≠ [])
    (htot : total_space_count config.display_space_map < U32)
    (hres : yabai_resolve_position config cmd = .ok (some p)) :
    yabai_move_space config cmd
      = .ok (some (config.display_space_map.map (fun e =>
          (e.1, preceding_spaces_total config.display_space_map e.1 + p % e.2.length))))
    ∧ issued_focus_cmds (config.display_space_map.map (fun e =>
          (e.1, preceding_spaces_total config.display_space_map e.1 + p % e.2.length)))
      = config.display_space_map.map (fun e =>
          ["-m", "space", "--focus",
            toString (preceding_spaces_total config.display_space_map e.1 + p % e.2.length + 1)]) := by
  constructor
  · simp only [yabai_move_space, hres]
    exact congrArg Except.ok
      (move_loop_go_spec config.display_space_map p hnd (fun e he => (hpos e he).1) htot
        config.display_space_map (fun e he => ⟨he, (hpos e he).2⟩))
  · simp only [issued_focus_cmds, List.map_map]
    apply List.map_congr_left
    intro e he
    have hb : preceding_spaces_total config.display_space_map e.1 + e.2.length
        ≤ total_space_count config.display_space_map :=
      mem_preceding_add_le config.display_space_map e.1 e.2 (by simpa using he)
    have hlen : ¬ e.2.length = 0 := by simpa using (hpos e he).2
    have hmod : p % e.2.length < e.2.length := Nat.mod_lt _ (by omega)
    simp only [Function.comp, yabai_focus_space_cmd]
    rw [Nat.mod_eq_of_lt (by omega)]

/-- Witness for C1: the two-display scenario of the spec (display 1 with
spaces `[1, 2]`, display 2 with spaces `[3, 4, 5]`, visible space 1 on the
focused display 1), direction Next (resolved position 1): targets are
local index 1 on display 1 and `2 + 1 = 3` on display 2, issued 1-based
as `2` and `4`. -/
theorem claim_c1_witness :
    yabai_move_space
        ⟨[(1, [1, 2]), (2, [3, 4, 5])], [(1, 1), (2, 3)], 1⟩ YabaiSpace.next
      = .ok (some [(1, 1), (2, 3)])
    ∧ issued_focus_cmds [(1, 1), (2, 3)]
      = [["-m", "space", "--focus", "2"], ["-m", "space", "--focus", "4"]] := by
  have h := claim_c1_absolute_targets_and_focus_commands
    ⟨[(1, [1, 2]), (2, [3, 4, 5])], [(1, 1), (2, 3)], 1⟩ YabaiSpace.next 1
    (by decide) (by decide) (by decide) (by decide)
  exact ⟨h.1, by decide⟩

/-- Claim C3: when the focused display's visible space sits at 0-based
position `p` of its ordered space list, resolution yields `p + 1` for
Next, `p - 1` for Previous (stated for `1 ≤ p`; position 0 is the
underflow defect of C4), and the literal `n` for ExplicitIndex; in
particular `[10, 20, 30]` with visible 20 resolves Next to position 2. -/
theorem claim_c3_resolved_positions :
    (∀ (config : YabaiSpaceConfig) (v : Nat) (spaces : List Nat) (p : Nat),
      lookupA config.display_visible_map config.focused_display = some v →
      lookupA config.display_space_map config.focused_display = some spaces →
      space_index_of spaces v = some p →
      yabai_resolve_position config YabaiSpace.next = .ok (some (p + 1))
      ∧ (1 ≤ p → yabai_resolve_position config YabaiSpace.previous = .ok (some (p - 1)))
      ∧ (∀ n, yabai_resolve_position config (YabaiSpace.space n) = .ok (some n)))
    ∧ yabai_resolve_position ⟨[(1, [10, 20, 30])], [(1, 20)], 1⟩ YabaiSpace.next
        = .ok (some 2) := by
  constructor
  · intro config v spaces p hv hs hp
    refine ⟨?_, ?_, ?_⟩
    · simp [yabai_resolve_position, hv, hs, hp, resolve_new_space]
    · intro h1
      simp [yabai_resolve_position, hv, hs, hp, resolve_new_space, checkedSub, h1]
    · intro n
      simp [yabai_resolve_position, hv, hs, hp, resolve_new_space]
  · decide

/-- Witness for C3 at the spec's snapshot: Next resolves to 2, Previous
to 0, ExplicitIndex 7 to 7. -/
theorem claim_c3_witness :
    yabai_resolve_position ⟨[(1, [10, 20, 30])], [(1, 20)], 1⟩ YabaiSpace.next
      = .ok (some 2)
    ∧ yabai_resolve_position ⟨[(1, [10, 20, 30])], [(1, 20)], 1⟩ YabaiSpace.previous
      = .ok (some 0)
    ∧ yabai_resolve_position ⟨[(1, [10, 20, 30])], [(1, 20)], 1⟩ (YabaiSpace.space 7)
      = .ok (some 7) := by
  have h := claim_c3_resolved_positions.1
    ⟨[(1, [10, 20, 30])], [(1, 20)], 1⟩ 20 [10, 20, 30] 1
    (by decide) (by decide) (by decide)
  exact ⟨h.1, h.2.1 (by decide), h.2.2 7⟩

/-- Claim C4 (documenting the code defect): resolving Previous with the
visible space at position 0 reaches the `usize` underflow of
`space_index - 1` (modelled `.ok none`: a panic in debug builds, a silent
wrap in release builds) instead of any defined saturate / wrap-policy /
error outcome; at position 1 Previous resolves to 0 as the claim states. -/
theorem claim_c4_previous_at_position_zero :
    yabai_resolve_position ⟨[(1, [10, 20, 30])], [(1, 10)], 1⟩ YabaiSpace.previous
      = .ok none
    ∧ yabai_resolve_position ⟨[(1, [10, 20, 30])], [(1, 20)], 1⟩ YabaiSpace.previous
      = .ok (some 0) := by
  decide

/-- Claim C10: the preceding-displays offset computation underflows on a
display identifier of 0 (`0u32 - 1`, before the range is built) — the
loop aborts there — and is defined for every display identifier of at
least 1. -/
theorem claim_c10_preceding_offset_underflow_at_zero :
    (∀ m : List (Nat × List Nat), previous_spaces_code m 0 = none)
    ∧ (∀ (full rest : List (Nat × List Nat)) (s : List Nat) (p : Nat),
        move_loop_go full ((0, s) :: rest) p = none)
    ∧ (∀ (m : List (Nat × List Nat)) (d : Nat), 1 ≤ d →
        (previous_spaces_code m d).isSome = true) := by
  refine ⟨?_, ?_, ?_⟩
  · intro m
    rfl
  · intro full rest s p
    rfl
  · intro m d hd
    simp [previous_spaces_code, checkedSub, hd]

/-- Witness for C10: display identifier 2 is accepted, display 0 aborts
the loop. -/
theorem claim_c10_witness :
    (previous_spaces_code [(1, [10]), (2, [20, 21])] 2).isSome = true
    ∧ move_loop_go [(0, [7])] [(0, [7])] 3 = none := by
  exact ⟨claim_c10_preceding_offset_underflow_at_zero.2.2 [(1, [10]), (2, [20, 21])] 2 (by decide),
    claim_c10_preceding_offset_underflow_at_zero.2.1 [(0, [7])] [] [7] 3⟩

/-- Claim C2 (documenting the code defect): with `--cycle-to 2` selected,
`main` only prints `cycle to 2` and issues no focus command — although
`yabai_move_space` with `YabaiSpace.space 2`, the resolution-and-apply
path the claim describes (and which the source's dead `Space` match arm
implements), would issue one focus command per display. -/
theorem claim_c2_cycle_to_not_dispatched :
    run_main ⟨false, false, some 2⟩ (.ok ⟨[(1, [10, 20, 30])], [(1, 20)], 1⟩)
      = .ok (some [])
    ∧ yabai_move_space ⟨[(1, [10, 20, 30])], [(1, 20)], 1⟩ (YabaiSpace.space 2)
      = .ok (some [(1, 2)]) := by
  decide

/-- Claim C7: an invocation with none of the next / prev / cycle-to flags
set issues no focus-space command and finishes with success (exit status
0), given that the unconditional initial query step succeeded. -/
theorem claim_c7_no_flags_is_silent_noop (args : Arguments) (ys : YabaiSpaceConfig)
    (hn : args.next = false) (hp : args.prev = false) (hc : args.cycle_to = none) :
    run_main args (.ok ys) = .ok (some []) := by
  obtain ⟨n, p, c⟩ := args
  simp only at hn hp hc
  subst hn
  subst hp
  subst hc
  rfl

/-- Witness for C7 at a concrete snapshot. -/
theorem claim_c7_witness :
    run_main ⟨false, false, none⟩ (.ok ⟨[(1, [10, 20, 30])], [(1, 20)], 1⟩)
      = .ok (some []) :=
  claim_c7_no_flags_is_silent_noop ⟨false, false, none⟩
    ⟨[(1, [10, 20, 30])], [(1, 20)], 1⟩ rfl rfl rfl

/-- Claim C8: the focus dispatch is independent of its display argument —
the issued command line carries only the 1-based space index — and the
call returns success whenever the child process could be spawned,
regardless of the process's exit status or output; only a spawn failure
is reported, as the execution error. -/
theorem claim_c8_focus_dispatch_ignores_display :
    (∀ d d' idx, yabai_focus_space_cmd d idx = yabai_focus_space_cmd d' idx)
    ∧ (∀ d d' idx spawn, yabai_focus_space d idx spawn = yabai_focus_space d' idx spawn)
    ∧ (∀ d idx out, yabai_focus_space d idx (some out) = .ok ())
    ∧ (∀ d idx, yabai_focus_space d idx none = .error .YabayExecutionError) :=
  ⟨fun _ _ _ => rfl, fun _ _ _ _ => rfl, fun _ _ _ => rfl, fun _ _ => rfl⟩

/-! ### Snapshot-building lemmas -/

theorem build_config_go_ok_iff (groups : List (Nat × List YabaiSpaceConfigJson)) :
    ∀ config : YabaiSpaceConfig,
      (∃ c, build_config_go groups config = .ok c)
        ↔ ∀ e ∈ groups, e.2.countP (fun r => r.is_visible) = 1 := by
  induction groups with
  | nil =>
    intro config
    simp [build_config_go]
  | cons x rest ih =>
    intro config
    obtain ⟨k, g⟩ := x
    simp only [build_config_go]
    cases hx : exactlyOne (g.filter (fun s => s.is_visible)) with
    | none =>
      constructor
      · rintro ⟨c, hc⟩
        cases hc
      · intro h
        exfalso
        have h1 := h (k, g) (by simp)
        have h2 : (exactlyOne (g.filter (fun s => s.is_visible))).isSome = true :=
          (exactlyOne_isSome_iff _).mpr (by rw [← List.countP_eq_length_filter]; exact h1)
        rw [hx] at h2
        cases h2
    | some fs =>
      rw [ih _]
      constructor
      · intro h e he
        rcases List.mem_cons.mp he with he' | he'
        · subst he'
          have h2 : (exactlyOne (g.filter (fun s => s.is_visible))).isSome = true := by
            rw [hx]; rfl
          have h3 := (exactlyOne_isSome_iff _).mp h2
          rw [← List.countP_eq_length_filter] at h3
          exact h3
        · exact h e he'
      · intro h e he
        exact h e (List.mem_cons_of_mem _ he)

theorem build_config_go_error_eq (groups : List (Nat × List YabaiSpaceConfigJson)) :
    ∀ (config : YabaiSpaceConfig) (e : ProgramError),
      build_config_go groups config = .error e → e = .YabaiConfigError := by
  induction groups with
  | nil =>
    intro config e h
    cases h
  | cons x rest ih =>
    intro config e
    obtain ⟨k, g⟩ := x
    simp only [build_config_go]
    cases hx : exactlyOne (g.filter (fun s => s.is_visible)) with
    | none =>
      intro h
      injection h with h'
      exact h'.symm
    | some fs => exact ih _ e

/-- Snapshot building succeeds exactly when the whole sequence has one
focused record and each (contiguous) display group has one visible
record. -/
theorem yabai_query_spaces_ok_iff (records : List YabaiSpaceConfigJson) :
    (∃ config, yabai_query_spaces records = .ok config)
      ↔ (records.countP (fun r => r.has_focus) = 1
          ∧ ∀ e ∈ group_by_display records, e.2.countP (fun r => r.is_visible) = 1) := by
  simp only [yabai_query_spaces]
  cases hf : exactlyOne (records.filter (fun s => s.has_focus)) with
  | none =>
    constructor
    · rintro ⟨c, hc⟩
      cases hc
    · rintro ⟨h1, -⟩
      exfalso
      have h2 : (exactlyOne (records.filter (fun s => s.has_focus))).isSome = true :=
        (exactlyOne_isSome_iff _).mpr (by rw [← List.countP_eq_length_filter]; exact h1)
      rw [hf] at h2
      cases h2
  | some f =>
    have h1 : records.countP (fun r => r.has_focus) = 1 := by
      have h2 : (exactlyOne (records.filter (fun s => s.has_focus))).isSome = true := by
        rw [hf]; rfl
      have h3 := (exactlyOne_isSome_iff _).mp h2
      rw [← List.countP_eq_length_filter] at h3
      exact h3
    rw [build_config_go_ok_iff _ _]
    constructor
    · intro h
      exact ⟨h1, h⟩
    · rintro ⟨-, h⟩
      exact h

/-- The only error snapshot building ever reports is the
configuration-consistency error. -/
theorem yabai_query_spaces_error_eq (records : List YabaiSpaceConfigJson)
    (e : ProgramError) (h : yabai_query_spaces records = .error e) :
    e = .YabaiConfigError := by
  revert h
  simp only [yabai_query_spaces]
  cases hf : exactlyOne (records.filter (fun s => s.has_focus)) with
  | none =>
    intro h
    injection h with h'
    exact h'.symm
  | some f => exact build_config_go_error_eq _ _ e

/-- Claim C5: for every decoded record sequence, snapshot building
succeeds exactly when one record of the whole sequence has focus and
each display group has exactly one visible record; any violation of
either cardinality fails with the configuration-consistency error. -/
theorem claim_c5_snapshot_cardinality_invariants (records : List YabaiSpaceConfigJson) :
    ((∃ config, yabai_query_spaces records = .ok config)
      ↔ (records.countP (fun r => r.has_focus) = 1
          ∧ ∀ e ∈ group_by_display records, e.2.countP (fun r => r.is_visible) = 1))
    ∧ (yabai_query_spaces records = .error .YabaiConfigError
      ↔ ¬ (records.countP (fun r => r.has_focus) = 1
          ∧ ∀ e ∈ group_by_display records, e.2.countP (fun r => r.is_visible) = 1)) := by
  refine ⟨yabai_query_spaces_ok_iff records, ?_, ?_⟩
  · intro herr hcond
    obtain ⟨c, hc⟩ := (yabai_query_spaces_ok_iff records).mpr hcond
    rw [herr] at hc
    cases hc
  · intro hcond
    cases hq : yabai_query_spaces records with
    | ok c =>
      exact absurd ((yabai_query_spaces_ok_iff records).mp ⟨c, hq⟩) hcond
    | error e =>
      rw [yabai_query_spaces_error_eq records e hq]

/-- Witness for C5: a valid sequence builds, and dropping the focused
record makes building fail with the configuration-consistency error. -/
theorem claim_c5_witness :
    (∃ config, yabai_query_spaces
        [⟨10, 1, true, true⟩, ⟨20, 1, false, false⟩] = .ok config)
    ∧ yabai_query_spaces [⟨10, 1, false, true⟩, ⟨20, 1, false, false⟩]
      = .error .YabaiConfigError :=
  ⟨(claim_c5_snapshot_cardinality_invariants
      [⟨10, 1, true, true⟩, ⟨20, 1, false, false⟩]).1.mpr (by decide),
    (claim_c5_snapshot_cardinality_invariants
      [⟨10, 1, false, true⟩, ⟨20, 1, false, false⟩]).2.mpr (by decide)⟩

/-! ### What the built maps hold, entry by entry -/

theorem build_config_go_space_lookup (groups : List (Nat × List YabaiSpaceConfigJson)) :
    ∀ (config out : YabaiSpaceConfig), build_config_go groups config = .ok out →
    ∀ d, lookupA out.display_space_map d
      = match lookupLast groups d with
        | some g => some (g.map (fun r => r.id))
        | none => lookupA config.display_space_map d := by
  induction groups with
  | nil =>
    intro config out h d
    injection h with h'
    subst h'
    rfl
  | cons x rest ih =>
    intro config out h d
    obtain ⟨k, g⟩ := x
    simp only [build_config_go] at h
    cases hx : exactlyOne (g.filter (fun s => s.is_visible)) with
    | none =>
      rw [hx] at h
      cases h
    | some fs =>
      rw [hx] at h
      have := ih _ out h d
      simp only [lookupA_insertAssoc] at this
      simp only [lookupLast]
      cases hl : lookupLast rest d with
      | some g' =>
        rw [hl] at this
        exact this
      | none =>
        rw [hl] at this
        by_cases hkd : k = d
        · simp only [if_pos hkd] at this ⊢
          exact this
        · simp only [if_neg hkd] at this ⊢
          exact this

theorem build_config_go_visible_lookup (groups : List (Nat × List YabaiSpaceConfigJson)) :
    ∀ (config out : YabaiSpaceConfig), build_config_go groups config = .ok out →
    ∀ d, lookupA out.display_visible_map d
      = match lookupLast groups d with
        | some g => (exactlyOne (g.filter (fun r => r.is_visible))).map (fun r => r.id)
        | none => lookupA config.display_visible_map d := by
  induction groups with
  | nil =>
    intro config out h d
    injection h with h'
    subst h'
    rfl
  | cons x rest ih =>
    intro config out h d
    obtain ⟨k, g⟩ := x
    simp only [build_config_go] at h
    cases hx : exactlyOne (g.filter (fun s => s.is_visible)) with
    | none =>
      rw [hx] at h
      cases h
    | some fs =>
      rw [hx] at h
      have := ih _ out h d
      simp only [lookupA_insertAssoc] at this
      simp only [lookupLast]
      cases hl : lookupLast rest d with
      | some g' =>
        rw [hl] at this
        exact this
      | none =>
        rw [hl] at this
        by_cases hkd : k = d
        · simp only [if_pos hkd] at this ⊢
          simp [this, hx]
        · simp only [if_neg hkd] at this ⊢
          exact this

/-- With distinct group keys (each display's records contiguous), the
group stored under a display is exactly the filter of the records by that
display, in source order. -/
theorem filter_eq_group_of_nodup (records : List YabaiSpaceConfigJson) :
    ((group_by_display records).map Prod.fst).Nodup →
    ∀ d g, lookupA (group_by_display records) d = some g →
      records.filter (fun r => r.display = d) = g := by
  induction records with
  | nil =>
    intro _ d g h
    cases h
  | cons x xs ih =>
    intro hnd d g hg
    cases hG : group_by_display xs with
    | nil =>
      have hxs : xs = [] := (group_by_display_nil_iff xs).mp hG
      subst hxs
      simp only [group_by_display, lookupA] at hg
      by_cases hxd : x.display = d
      · rw [if_pos hxd] at hg
        injection hg with hg'
        subst hg'
        simp [List.filter_cons, hxd]
      · rw [if_neg hxd] at hg
        cases hg
    | cons e rest =>
      obtain ⟨k, g₀⟩ := e
      by_cases hx : x.display = k
      · have hgroups : group_by_display (x :: xs) = (k, x :: g₀) :: rest := by
          simp only [group_by_display, hG, if_pos hx]
        rw [hgroups] at hnd hg
        have hnd' : ((group_by_display xs).map Prod.fst).Nodup := by
          rw [hG]
          simpa using hnd
        simp only [lookupA] at hg
        by_cases hkd : k = d
        · subst hkd
          rw [if_pos rfl] at hg
          injection hg with hg'
          subst hg'
          have hfx : xs.filter (fun r => r.display = k) = g₀ :=
            ih hnd' k g₀ (by rw [hG]; simp [lookupA])
          simp [List.filter_cons, hx, hfx]
        · rw [if_neg hkd] at hg
          have hfx : xs.filter (fun r => r.display = d) = g :=
            ih hnd' d g (by rw [hG]; simp [lookupA, hkd, hg])
          have hxd : ¬ x.display = d := by rw [hx]; exact hkd
          simp [List.filter_cons, hxd, hfx]
      · have hgroups : group_by_display (x :: xs) = (x.display, [x]) :: (k, g₀) :: rest := by
          simp only [group_by_display, hG, if_neg hx]
        rw [hgroups] at hnd hg
        simp only [List.map_cons, List.nodup_cons] at hnd
        have hnd' : ((group_by_display xs).map Prod.fst).Nodup := by
          rw [hG]
          simp only [List.map_cons, List.nodup_cons]
          exact ⟨hnd.2.1, hnd.2.2⟩
        simp only [lookupA] at hg
        by_cases hxd : x.display = d
        · rw [if_pos hxd] at hg
          injection hg with hg'
          subst hg'
          have hnil : xs.filter (fun r => r.display = d) = [] := by
            rw [List.filter_eq_nil_iff]
            intro r hr hrd
            apply hnd.1
            have hmem := mem_display_mem_group_keys xs r hr
            rw [hG] at hmem
            simp only [List.map_cons] at hmem
            have hrd' : r.display = d := by simpa using hrd
            rw [hxd, ← hrd']
            exact hmem
          simp [List.filter_cons, hxd, hnil]
        · rw [if_neg hxd] at hg
          have hfx : xs.filter (fun r => r.display = d) = g :=
            ih hnd' d g (by rw [hG]; exact hg)
          simp [List.filter_cons, hxd, hfx]

/-- Counterexample to C6 as stated: with display 1's records split into
two non-contiguous runs the snapshot still builds, but its stored list
for display 1 is `[3]` — the last run only — while the ids of display 1's
records in original order are `[1, 3]`. -/
theorem claim_c6_counterexample :
    yabai_query_spaces
        [⟨1, 1, true, true⟩, ⟨2, 2, false, true⟩, ⟨3, 1, false, true⟩]
      = .ok ⟨[(1, [3]), (2, [2])], [(1, 3), (2, 2)], 1⟩
    ∧ lookupA ([(1, [3]), (2, [2])] : List (Nat × List Nat)) 1 = some [3]
    ∧ (([⟨1, 1, true, true⟩, ⟨2, 2, false, true⟩, ⟨3, 1, false, true⟩]
          : List YabaiSpaceConfigJson).filter (fun r => r.display = 1)).map
            (fun r => r.id) = [1, 3]
    ∧ some ([3] : List Nat) ≠ some [1, 3] := by
  decide

/-- Claim C6, amended with the contiguity proviso that §4.1 of the spec
attaches to the grouping step: provided each display's records form a
single contiguous run of the source sequence (equivalently, the group
keys are pairwise distinct), every per-display space-id list stored in a
successfully built snapshot equals the ids of that display's records in
their original order of appearance. -/
theorem claim_c6_amended_per_display_roundtrip
    (records : List YabaiSpaceConfigJson)
    (hctg : ((group_by_display records).map Prod.fst).Nodup)
    (config : YabaiSpaceConfig)
    (hok : yabai_query_spaces records = .ok config) :
    ∀ d l, lookupA config.display_space_map d = some l →
      l = (records.filter (fun r => r.display = d)).map (fun r => r.id) := by
  intro d l hl
  simp only [yabai_query_spaces] at hok
  cases hf : exactlyOne (records.filter (fun s => s.has_focus)) with
  | none =>
    rw [hf] at hok
    cases hok
  | some f =>
    rw [hf] at hok
    have hs := build_config_go_space_lookup _ _ _ hok d
    rw [hl] at hs
    cases hg : lookupLast (group_by_display records) d with
    | none =>
      rw [hg] at hs
      cases hs
    | some g =>
      rw [hg] at hs
      injection hs with hs'
      rw [lookupLast_eq_lookupA _ _ hctg] at hg
      rw [filter_eq_group_of_nodup records hctg d g hg]
      exact hs'

/-- Witness for the amended C6: one contiguous display, stored list
`[10, 20, 30]` equals the filtered ids. -/
theorem claim_c6_witness :
    ([10, 20, 30] : List Nat)
      = (([⟨10, 1, true, false⟩, ⟨20, 1, false, true⟩, ⟨30, 1, false, false⟩]
          : List YabaiSpaceConfigJson).filter (fun r => r.display = 1)).map
            (fun r => r.id) :=
  claim_c6_amended_per_display_roundtrip
    [⟨10, 1, true, false⟩, ⟨20, 1, false, true⟩, ⟨30, 1, false, false⟩]
    (by decide) ⟨[(1, [10, 20, 30])], [(1, 20)], 1⟩ (by decide) 1 [10, 20, 30] (by decide)

/-- Counterexample to C9 as stated: display 1's records form two
non-contiguous runs, each run has exactly one visible record, yet
snapshot building still raises the configuration-consistency error,
because no record of the sequence has focus — the claim needs the
whole-sequence focus invariant as an additional proviso. -/
theorem claim_c9_counterexample :
    2 ≤ ((group_by_display
        [⟨1, 1, false, true⟩, ⟨2, 2, false, true⟩, ⟨3, 1, false, true⟩]).map
          Prod.fst).count 1
    ∧ (∀ e ∈ group_by_display
          [⟨1, 1, false, true⟩, ⟨2, 2, false, true⟩, ⟨3, 1, false, true⟩],
        e.2.countP (fun r => r.is_visible) = 1)
    ∧ yabai_query_spaces
        [⟨1, 1, false, true⟩, ⟨2, 2, false, true⟩, ⟨3, 1, false, true⟩]
      = .error .YabaiConfigError := by
  decide

/-- Claim C9, amended with the focus proviso: if some display's records
appear in two or more non-contiguous runs, each run contains exactly one
visible record, and exactly one record of the whole sequence has focus,
then snapshot building raises no error, and for that display both
per-display maps keep only the last run's values — each later run's
insert overwrites the earlier one's. -/
theorem claim_c9_amended_last_run_wins
    (records : List YabaiSpaceConfigJson) (d : Nat)
    (hruns : 2 ≤ ((group_by_display records).map Prod.fst).count d)
    (hfocus : records.countP (fun r => r.has_focus) = 1)
    (hvis : ∀ e ∈ group_by_display records, e.2.countP (fun r => r.is_visible) = 1) :
    ∃ config, yabai_query_spaces records = .ok config
      ∧ lookupA config.display_space_map d
        = (lookupLast (group_by_display records) d).map (fun g => g.map (fun r => r.id))
      ∧ lookupA config.display_visible_map d
        = (lookupLast (group_by_display records) d).bind
            (fun g => (exactlyOne (g.filter (fun r => r.is_visible))).map (fun r => r.id)) := by
  obtain ⟨config, hok⟩ := (yabai_query_spaces_ok_iff records).mpr ⟨hfocus, hvis⟩
  have hok' := hok
  simp only [yabai_query_spaces] at hok'
  cases hf : exactlyOne (records.filter (fun s => s.has_focus)) with
  | none =>
    rw [hf] at hok'
    cases hok'
  | some f =>
    rw [hf] at hok'
    have hs := build_config_go_space_lookup _ _ _ hok' d
    have hv := build_config_go_visible_lookup _ _ _ hok' d
    refine ⟨config, hok, ?_, ?_⟩
    · rw [hs]
      cases lookupLast (group_by_display records) d <;> rfl
    · rw [hv]
      cases lookupLast (group_by_display records) d <;> rfl

/-- Witness for the amended C9: display 1 appears in two runs; the
snapshot keeps the second run's list `[3]` and visible id 3. -/
theorem claim_c9_witness :
    ∃ config, yabai_query_spaces
        [⟨1, 1, true, true⟩, ⟨2, 2, false, true⟩, ⟨3, 1, false, true⟩]
      = .ok config
      ∧ lookupA config.display_space_map 1
        = (lookupLast (group_by_display
            [⟨1, 1, true, true⟩, ⟨2, 2, false, true⟩, ⟨3, 1, false, true⟩]) 1).map
              (fun g => g.map (fun r => r.id))
      ∧ lookupA config.display_visible_map 1
        = (lookupLast (group_by_display
            [⟨1, 1, true, true⟩, ⟨2, 2, false, true⟩, ⟨3, 1, false, true⟩]) 1).bind
              (fun g => (exactlyOne (g.filter (fun r => r.is_visible))).map (fun r => r.id)) :=
  claim_c9_amended_last_run_wins
    [⟨1, 1, true, true⟩, ⟨2, 2, false, true⟩, ⟨3, 1, false, true⟩] 1
    (by decide) (by decide) (by decide)
